import Mathlib

/-!
A shallow embedding, in Lean 4, of the core pipeline of the arXiv RSS filter
bot: the keyword/recency/date-range paper filter (`paper_processor.py`), the
paginated and bucketed fetcher with per-page retry (`arxiv_fetcher.py`), the
per-channel delivery-history bookkeeping (`email_subscription.py`,
`conference_subscription.py`) and the AI-analysis selection scoring
(`main.py`), together with proofs about them.

Modelling conventions:
* Python `datetime` values are modelled by `ArxDateTime` (absolute UTC
  timestamp in seconds plus the `year`/`month` fields read by the date-range
  filter); `timedelta.days` is floor division of the second difference by
  86400, i.e. `Int.fdiv`.
* Python floats are modelled by `ℚ`; every property proved about them
  (bounds by `0.5`/`1.0`, threshold comparisons) is monotone and hence
  insensitive to rounding.
* Python dict/set membership is modelled by `List` membership; the
  truthiness of an optional value (`None`, `0`, `""`, `{}` are falsy) is
  modelled by `Option`/the empty string, as noted at each definition.
* Blocking I/O (HTTP requests, SMTP sends) is modelled by oracle arguments:
  a `Bool`-valued function saying whether each attempt succeeds.
-/

namespace ArxivBot

/-! ### Porter stemmer

`paper_processor.py` stems with `nltk.stem.PorterStemmer`, a third-party
library that is not part of this repository.  Modelled from the spec: "both
the paper text (title + abstract) and each keyword are reduced to a
language-stem token signature (lower-cased, tokenized, each token reduced to
its stem, rejoined)", "Stemming: reducing a word to its linguistic root for
loose substring matching", allowing "matching across simple morphological
variants (plural/tense)".  The model is the classic Porter (1980) algorithm,
which is what `PorterStemmer` implements.
-/

namespace Porter

def vowelPlain (c : Char) : Bool :=
  c == 'a' || c == 'e' || c == 'i' || c == 'o' || c == 'u'

/-- A letter is a consonant when it is not `a,e,i,o,u` and not a `y` that is
preceded by a consonant. -/
def isConsChar (c : Char) (prevCons : Bool) : Bool :=
  if vowelPlain c then false
  else if c == 'y' then !prevCons
  else true

def consFlagsAux (prev : Bool) : List Char → List Bool
  | [] => []
  | c :: cs =>
    let b := isConsChar c prev
    b :: consFlagsAux b cs

/-- For each letter of the word, whether it counts as a consonant. -/
def consFlags (w : List Char) : List Bool := consFlagsAux false w

/-- The measure `m` of a word: the number of vowel→consonant transitions,
i.e. the number of `VC` blocks in `[C](VC)^m[V]`. -/
def measureOf (w : List Char) : Nat :=
  ((consFlags w).zip (consFlags w).tail).countP (fun p => !p.1 && p.2)

/-- Condition `*v*`: the stem contains a vowel. -/
def hasVowel (w : List Char) : Bool := (consFlags w).contains false

def lastIs (w : List Char) (c : Char) : Bool := w.getLast? == some c

/-- Condition `*d`: the stem ends with a double consonant. -/
def endsDouble (w : List Char) : Bool :=
  match w.reverse, (consFlags w).reverse with
  | a :: b :: _, f :: _ => a == b && f
  | _, _ => false

/-- Condition `*o`: the stem ends consonant-vowel-consonant where the final
consonant is not `w`, `x` or `y`. -/
def endsCVC (w : List Char) : Bool :=
  match w.reverse, (consFlags w).reverse with
  | c :: _, f1 :: f2 :: f3 :: _ =>
    f1 && !f2 && f3 && !(c == 'w' || c == 'x' || c == 'y')
  | _, _ => false

/-- Remove the last `n` letters. -/
def chop (w : List Char) (n : Nat) : List Char := w.take (w.length - n)

def step1a (w : List Char) : List Char :=
  if "sses".toList.isSuffixOf w then chop w 2
  else if "ies".toList.isSuffixOf w then chop w 3 ++ ['i']
  else if "ss".toList.isSuffixOf w then w
  else if "s".toList.isSuffixOf w then chop w 1
  else w

def step1bPost (w : List Char) : List Char :=
  if "at".toList.isSuffixOf w || "bl".toList.isSuffixOf w
      || "iz".toList.isSuffixOf w then w ++ ['e']
  else if endsDouble w && !(lastIs w 'l' || lastIs w 's' || lastIs w 'z') then
    chop w 1
  else if measureOf w == 1 && endsCVC w then w ++ ['e']
  else w

def step1b (w : List Char) : List Char :=
  if "eed".toList.isSuffixOf w then
    if 0 < measureOf (chop w 3) then chop w 1 else w
  else if "ed".toList.isSuffixOf w then
    if hasVowel (chop w 2) then step1bPost (chop w 2) else w
  else if "ing".toList.isSuffixOf w then
    if hasVowel (chop w 3) then step1bPost (chop w 3) else w
  else w

def step1c (w : List Char) : List Char :=
  if lastIs w 'y' && hasVowel (chop w 1) then chop w 1 ++ ['i'] else w

def rules2 : List (String × String) :=
  [("ational", "ate"), ("tional", "tion"), ("enci", "ence"), ("anci", "ance"),
   ("izer", "ize"), ("abli", "able"), ("alli", "al"), ("entli", "ent"),
   ("eli", "e"), ("ousli", "ous"), ("ization", "ize"), ("ation", "ate"),
   ("ator", "ate"), ("alism", "al"), ("iveness", "ive"), ("fulness", "ful"),
   ("ousness", "ous"), ("aliti", "al"), ("iviti", "ive"), ("biliti", "ble")]

def rules3 : List (String × String) :=
  [("icate", "ic"), ("ative", ""), ("alize", "al"), ("iciti", "ic"),
   ("ical", "ic"), ("ful", ""), ("ness", "")]

def findRule (w : List Char) : List (String × String) → Option (String × String)
  | [] => none
  | (suf, rep) :: rest =>
    if suf.toList.isSuffixOf w then some (suf, rep) else findRule w rest

/-- Apply the first rule whose suffix matches, provided the measure of the
stem is positive; when the suffix matches but the condition fails the word is
left unchanged (no later rule is tried). -/
def applyRules (rules : List (String × String)) (w : List Char) : List Char :=
  match findRule w rules with
  | none => w
  | some (suf, rep) =>
    let stem := chop w suf.length
    if 0 < measureOf stem then stem ++ rep.toList else w

def rules4 : List String :=
  ["al", "ance", "ence", "er", "ic", "able", "ible", "ant", "ement", "ment",
   "ent", "ion", "ou", "ism", "ate", "iti", "ous", "ive", "ize"]

def findSuf (w : List Char) : List String → Option String
  | [] => none
  | s :: rest => if s.toList.isSuffixOf w then some s else findSuf w rest

def step4 (w : List Char) : List Char :=
  match findSuf w rules4 with
  | none => w
  | some suf =>
    let stem := chop w suf.length
    if 1 < measureOf stem then
      if suf == "ion" then
        if lastIs stem 's' || lastIs stem 't' then stem else w
      else stem
    else w

def step5a (w : List Char) : List Char :=
  if lastIs w 'e' then
    let stem := chop w 1
    if 1 < measureOf stem then stem
    else if measureOf stem == 1 && !endsCVC stem then stem
    else w
  else w

def step5b (w : List Char) : List Char :=
  if 1 < measureOf w then
    if endsDouble w && lastIs w 'l' then chop w 1 else w
  else w

/-- Full Porter pipeline; words of length at most 2 are left unchanged. -/
def stemList (w : List Char) : List Char :=
  if w.length ≤ 2 then w
  else step5b (step5a (step4 (applyRules rules3 (applyRules rules2
    (step1c (step1b (step1a w)))))))

end Porter

/-! ### `paper_processor.py` -/

/-- Word characters, as matched by the regex `\w` on ASCII text. -/
def isWordChar (c : Char) : Bool := c.isAlphanum || c == '_'

/-- Maximal runs of word characters, as `re.findall` with pattern `\w+`
(`cur` holds the current run, reversed). -/
def tokenizeAux : List Char → List Char → List (List Char)
  | [], cur => if cur.isEmpty then [] else [cur.reverse]
  | c :: cs, cur =>
    if isWordChar c then tokenizeAux cs (c :: cur)
    else if cur.isEmpty then tokenizeAux cs []
    else cur.reverse :: tokenizeAux cs []

def wordTokens (s : String) : List (List Char) :=
  tokenizeAux (s.toList.map Char.toLower) []

/-- `' '.join`, at the character-list level. -/
def joinSpaces : List (List Char) → List Char
  | [] => []
  | [t] => t
  | t :: rest => t ++ ' ' :: joinSpaces rest

/-- Embeds `stem_text` (paper_processor.py line 27): keep only the `\w+`
tokens of the lower-cased text, stem each and rejoin with single spaces. -/
def stem_text (s : String) : String :=
  String.mk (joinSpaces ((wordTokens s).map Porter.stemList))

/-- Python substring test `pat in hay` on lists of characters. -/
def listContainsSub (pat : List Char) : List Char → Bool
  | [] => pat.isEmpty
  | c :: t => pat.isPrefixOf (c :: t) || listContainsSub pat t

/-- Python substring test `pat in hay` on strings. -/
def strContainsSub (hay pat : String) : Bool := listContainsSub pat.toList hay.toList

/-- Model of a Python `datetime`: the absolute UTC timestamp in seconds,
together with the `year` and `month` fields read by the date-range filter. -/
structure ArxDateTime where
  year : Int
  month : Int
  sec : Int
deriving DecidableEq, Repr

/-- An entry of a paper's `authors` list, which in the source is either a
dict with `name`/`affiliation` keys or a bare string. -/
inductive AuthorRec where
  | named (name affiliation : String)
  | plain (name : String)
deriving DecidableEq, Repr

/-- The fields of a fetched paper dict used by `paper_processor.py` and
`main.py`.  `published`/`updated` model the optional `datetime` values. -/
structure Paper where
  id : String
  title : String
  summary : String
  published : Option ArxDateTime
  updated : Option ArxDateTime
  authors : List AuthorRec
deriving DecidableEq, Repr

/-- The `date_range` config dict `{'year': …, 'month': …}`.  A falsy field
(absent key, `None` or `0`, all observably equivalent in the source) is
modelled as `none`. -/
structure DateRange where
  year : Option Int
  month : Option Int
deriving DecidableEq, Repr

/-- The configuration fields read by `process_papers`, after the `get`
defaults are applied.  A falsy `date_range` (absent, `None` or `{}`) is
modelled as `none`. -/
structure Config where
  keywords : List String
  max_days_old : Int
  date_range : Option DateRange
deriving DecidableEq, Repr

/-- Embeds `check_keywords` (paper_processor.py lines 95-118): a keyword
matches when its stemmed form is a substring of the stemmed title or of the
stemmed summary; the matched keywords are returned in order. -/
def check_keywords (paper : Paper) (keywords : List String) : List String :=
  if keywords.isEmpty then []
  else
    let title := stem_text paper.title
    let summary := stem_text paper.summary
    keywords.filter (fun keyword =>
      let ks := stem_text keyword
      strContainsSub title ks || strContainsSub summary ks)

/-- Embeds `check_recency` (paper_processor.py lines 120-167).  Timezone
normalisation is the identity in this model (all timestamps are UTC). -/
def check_recency (paper : Paper) (now : Int) (max_days_old : Int) : Bool :=
  match paper.published with
  | none => false
  | some pub =>
    let paper_date :=
      match paper.updated with
      | some upd => if pub.sec < upd.sec then upd else pub
      | none => pub
    let days_old := (now - paper_date.sec).fdiv 86400
    let days_old := if days_old < 0 then 0 else days_old
    decide (days_old ≤ max_days_old)

/-- Embeds `check_date_range` (paper_processor.py lines 169-218). -/
def check_date_range (paper : Paper) (date_range : Option DateRange) : Bool :=
  match date_range with
  | none => true
  | some dr =>
    match paper.published with
    | none => false
    | some pub =>
      if dr.year.isNone && dr.month.isNone then true
      else
        let year_match := match dr.year with
          | some y => pub.year == y
          | none => true
        let month_match := match dr.month with
          | some m => pub.month == m
          | none => true
        year_match && month_match

/-- Embeds `extract_author_info` (paper_processor.py lines 220-253): each
author becomes a `(name, affiliation)` pair, the affiliation defaulting to
the empty string for bare-string authors. -/
def extract_author_info (paper : Paper) : List (String × String) :=
  paper.authors.map (fun a =>
    match a with
    | .named n aff => (n, aff)
    | .plain n => (n, ""))

/-- A processed paper: the original dict plus the fields added by the
`process_papers` loop. -/
structure ProcessedPaper where
  paper : Paper
  keyword_matches : List String
  is_recent : Bool
  is_in_date_range : Bool
  authors_info : List (String × String)
deriving DecidableEq, Repr

/-- The processed copy built for one paper inside the `process_papers`
loop (paper_processor.py lines 60-80). -/
def processOne (now : Int) (cfg : Config) (p : Paper) : ProcessedPaper :=
  { paper := p
    keyword_matches := check_keywords p cfg.keywords
    is_recent := check_recency p now cfg.max_days_old
    is_in_date_range :=
      match cfg.date_range with
      | none => true
      | some dr => check_date_range p (some dr)
    authors_info := extract_author_info p }

/-- The acceptance test of the `process_papers` loop (paper_processor.py
line 83): `(not keywords or keyword_matches) and is_recent and
is_in_date_range`. -/
def passes_filter (now : Int) (cfg : Config) (p : Paper) : Bool :=
  (cfg.keywords.isEmpty || !(check_keywords p cfg.keywords).isEmpty)
    && check_recency p now cfg.max_days_old
    && (match cfg.date_range with
        | none => true
        | some dr => check_date_range p (some dr))

/-- Comparison of sort keys `x.get('published', datetime.min)`
(paper_processor.py line 87): a missing date is `datetime.min`, below every
real timestamp, so `none` is a bottom element. -/
def pubKeyLE : Option ArxDateTime → Option ArxDateTime → Bool
  | none, _ => true
  | some _, none => false
  | some a, some b => decide (a.sec ≤ b.sec)

/-- The ordering used by `processed_papers.sort(key=…, reverse=True)`:
`a` may precede `b` when `a`'s key is at least `b`'s key.  Python's sort is
stable, as is `List.mergeSort`. -/
def procLE (a b : ProcessedPaper) : Bool :=
  pubKeyLE b.paper.published a.paper.published

/-- Embeds `process_papers` (paper_processor.py lines 31-93): keep the
papers passing the combined filter, augment them, and stably sort by
publication date, newest first.  `now` models `datetime.now(timezone.utc)`. -/
def process_papers (now : Int) (papers : List Paper) (cfg : Config) :
    List ProcessedPaper :=
  ((papers.filter (passes_filter now cfg)).map (processOne now cfg)).mergeSort procLE

/-! ### `arxiv_fetcher.py`

The arXiv API is modelled as a fixed dataset of records; a query returns the
records inside the requested submitted-date range, sorted newest first, and a
page is the slice `[start, start+cnt)` of that listing.  Dates are modelled
at day granularity, matching the `YYYYMMDD` bounds
`submittedDate:[…000000 TO …235959]` built by `_fetch_in_batches`.  The
network is modelled by an oracle giving the outcome of each HTTP attempt. -/

/-- A record of the modelled arXiv dataset: an identifier and its
submitted date (in days). -/
structure SrcPaper where
  id : Nat
  day : Int
deriving DecidableEq, Repr

/-- The service's listing: the dataset sorted by submitted date descending. -/
def apiSorted (ds : List SrcPaper) : List SrcPaper :=
  ds.insertionSort (fun a b => b.day ≤ a.day)

/-- One page of results for a date-range query: records with
`lo ≤ day ≤ hi`, newest first, sliced at `[start, start+cnt)`. -/
def apiQuery (ds : List SrcPaper) (lo hi : Int) (start cnt : Nat) : List SrcPaper :=
  ((((apiSorted ds).filter (fun p => decide (lo ≤ p.day) && decide (p.day ≤ hi))).drop
    start).take cnt)

/-- Outcome of the per-page retry `while` loop: whether a response was
obtained, how many HTTP attempts were made, and the backoff sleeps (in
seconds) performed between attempts. -/
structure RetryResult where
  ok : Bool
  attempts : Nat
  sleeps : List Nat
deriving DecidableEq, Repr

/-- Embeds the retry loop of `_fetch_in_batches` (arxiv_fetcher.py lines
292-307, identical to lines 144-159): while `retry_count < max_retries`,
attempt the request (`oc rc` is the outcome of attempt number `rc`); on
failure increment `retry_count`, raise when it reaches `max_retries`, and
otherwise sleep `2 ^ retry_count` seconds before the next attempt.  `fuel`
bounds the iterations and equals `maxRetries` at the entry point. -/
def retryLoopAux (oc : Nat → Bool) (maxRetries : Nat) : Nat → Nat → RetryResult
  | rc, 0 => ⟨false, rc, []⟩
  | rc, fuel + 1 =>
    if oc rc then ⟨true, rc + 1, []⟩
    else
      let rc' := rc + 1
      if maxRetries ≤ rc' then ⟨false, rc', []⟩
      else
        let r := retryLoopAux oc maxRetries rc' fuel
        ⟨r.ok, r.attempts, 2 ^ rc' :: r.sleeps⟩

/-- One page request with the fixed retry budget `max_retries = 3`. -/
def request_with_retry (oc : Nat → Bool) : RetryResult := retryLoopAux oc 3 0 3

/-- Whether the page request eventually succeeded. -/
def pageOk (oc : Nat → Bool) : Bool := (request_with_retry oc).ok

/-- Embeds the page loop of one batch of `_fetch_in_batches` (arxiv_fetcher.py
lines 273-362): `for start in range(0, batch_max_results, page_size)`; stop
early when enough papers were collected or a page comes back empty; a page
whose retries are exhausted is caught by the `except` and the loop continues
with the next offset.  `oc start` gives the attempt outcomes of the page at
offset `start`; `fuel` counts the remaining offsets of the `range`. -/
def batchPageLoop (ds : List SrcPaper) (lo hi : Int) (bmax : Nat)
    (oc : Nat → Nat → Bool) : Nat → Nat → List SrcPaper → List SrcPaper
  | 0, _, acc => acc
  | fuel + 1, start, acc =>
    if bmax ≤ start then acc
    else if bmax ≤ acc.length then acc
    else if pageOk (oc start) then
      let entries := apiQuery ds lo hi start (min 100 (bmax - start))
      if entries.isEmpty then acc
      else batchPageLoop ds lo hi bmax oc fuel (start + 100) (acc ++ entries)
    else batchPageLoop ds lo hi bmax oc fuel (start + 100) acc

/-- The paginated fetch of one date bucket, with page size 100 and at most
`bmax` results. -/
def fetch_batch (ds : List SrcPaper) (lo hi : Int) (bmax : Nat)
    (oc : Nat → Nat → Bool) : List SrcPaper :=
  batchPageLoop ds lo hi bmax oc ((bmax + 99) / 100) 0 []

/-- `num_batches = (max_days_old + batch_days - 1) // batch_days` with
`batch_days = 90` (arxiv_fetcher.py line 244). -/
def num_batches (max_days_old : Nat) : Nat := (max_days_old + 90 - 1) / 90

/-- `batch_max_results = max(100, max_results // num_batches)`
(arxiv_fetcher.py line 247). -/
def batch_max_results (max_results nb : Nat) : Nat := max 100 (max_results / nb)

/-- Start day of bucket `b`: `now - min(max_days_old, (b+1)*90)` days
(arxiv_fetcher.py line 260). -/
def bucketLo (now : Int) (max_days_old : Nat) (b : Nat) : Int :=
  now - (min max_days_old ((b + 1) * 90) : Nat)

/-- End day of bucket `b`: `now - b*90` days (arxiv_fetcher.py line 259). -/
def bucketHi (now : Int) (b : Nat) : Int := now - (b * 90 : Nat)

/-- Embeds the bucket loop of `_fetch_in_batches` (arxiv_fetcher.py lines
257-370): fetch each bucket in turn, append its papers, and stop early once
`max_results` papers were accumulated.  `oc b` is the attempt oracle of
bucket `b`. -/
def batchLoop (ds : List SrcPaper) (now : Int) (mdo mr bmax : Nat)
    (oc : Nat → Nat → Nat → Bool) : List Nat → List SrcPaper → List SrcPaper
  | [], acc => acc
  | b :: rest, acc =>
    let bp := fetch_batch ds (bucketLo now mdo b) (bucketHi now b) bmax (oc b)
    let acc' := acc ++ bp
    if mr ≤ acc'.length then acc'
    else batchLoop ds now mdo mr bmax oc rest acc'

/-- Embeds `_fetch_in_batches` (arxiv_fetcher.py lines 227-373). -/
def fetch_in_batches (ds : List SrcPaper) (now : Int) (max_results max_days_old : Nat)
    (oc : Nat → Nat → Nat → Bool) : List SrcPaper :=
  batchLoop ds now max_days_old max_results
    (batch_max_results max_results (num_batches max_days_old)) oc
    (List.range (num_batches max_days_old)) []

/-- Modelled from the spec: "a single non-bucketed 200-day fetch over the
same fixed dataset" / "a single non-bucketed fetch of the whole window" —
the records of the dataset whose submitted date lies in the whole
`max_days_old`-day window ending at `now`, newest first.  (The repository's
non-bucketed code path applies no date restriction at all, so the window
fetch the claim compares against exists only in the spec's words.) -/
def spec_whole_window_fetch (ds : List SrcPaper) (now : Int) (max_days_old : Nat) :
    List SrcPaper :=
  (apiSorted ds).filter (fun p => decide (now - max_days_old ≤ p.day) && decide (p.day ≤ now))

/-! ### `email_subscription.py` — the feed-subscription channel -/

/-- A paper parsed from the RSS artifact (`parse_rss_file`). -/
structure RssPaper where
  title : String
  link : String
  description : String
  guid : String
  pubDate : String
deriving DecidableEq, Repr

/-- The persisted feed-channel history `subscription_history.json`.  The
source keeps `sent_papers` as a JSON list, loads it into a `set` and stores
`list(set)` back; only membership is observable, modelled by a list. -/
structure EmailHistory where
  sent_papers : List String
  last_sent : Option String
deriving DecidableEq, Repr

/-- Embeds the comprehension
`[p for p in all_papers if p['guid'] not in sent_papers]`
(email_subscription.py line 384); the spec names this `filter_new`. -/
def filter_new (papers : List RssPaper) (sent : List String) : List RssPaper :=
  papers.filter (fun p => decide (p.guid ∉ sent))

/-- Embeds the history update on successful send (email_subscription.py
lines 393-397); the spec names this `record_delivered`. -/
def record_delivered (h : EmailHistory) (batch : List RssPaper) (now : String) :
    EmailHistory :=
  { sent_papers := h.sent_papers ++ batch.map (·.guid), last_sent := some now }

/-- Embeds one run of `run_subscription` (email_subscription.py lines
369-407), after config validation and RSS parsing: filter the parsed papers
against the loaded history, and when there are new papers attempt the send
(outcome `send_ok`); only a successful send updates and saves the history.
Returns the updated history, the batch passed to the emit stage, and whether
the run delivered. -/
def run_subscription_step (h : EmailHistory) (papers : List RssPaper)
    (send_ok : Bool) (now : String) : EmailHistory × List RssPaper × Bool :=
  let newPapers := filter_new papers h.sent_papers
  if newPapers.isEmpty then (h, [], false)
  else if send_ok then (record_delivered h newPapers now, newPapers, true)
  else (h, newPapers, false)

/-- A sequence of feed-channel runs; each input holds the papers parsed from
the latest RSS file, the send outcome and the run timestamp.  Returns the
final history and the batch passed to the emit stage on each run. -/
def email_runs (h : EmailHistory) :
    List (List RssPaper × Bool × String) → EmailHistory × List (List RssPaper)
  | [] => (h, [])
  | (papers, ok, now) :: rest =>
    let s := run_subscription_step h papers ok now
    let r := email_runs s.1 rest
    (r.1, s.2.1 :: r.2)

/-! ### `conference_subscription.py` — the conference-subscription channel -/

/-- A paper of a conference output file; a missing or falsy `id` is
modelled as the empty string. -/
structure ConfPaper where
  id : String
  title : String
  abstract : String
deriving DecidableEq, Repr

/-- One conference output file (`parse_conference_file`). -/
structure ConfFile where
  conference : String
  papers : List ConfPaper
deriving DecidableEq, Repr

/-- The persisted conference-channel history
`conference_subscription_history.json`: the global delivered set and the
per-conference sets (the `sent_by_conference` dict, modelled as an
association list). -/
structure ConfHistory where
  sent_papers : List String
  sent_by_conference : List (String × List String)
  last_sent : Option String
deriving DecidableEq, Repr

/-- `sent_by_conference.get(conference_name, [])`. -/
def lookupConf (m : List (String × List String)) (c : String) : List String :=
  match m.find? (fun e => decide (e.1 = c)) with
  | some e => e.2
  | none => []

/-- Setting `sent_by_conference[conference_name]`, creating the key if
absent. -/
def setConf (m : List (String × List String)) (c : String) (v : List String) :
    List (String × List String) :=
  if (m.find? (fun e => decide (e.1 = c))).isSome then
    m.map (fun e => if e.1 = c then (e.1, v) else e)
  else m ++ [(c, v)]

/-- Embeds the comprehension `[p for p in all_papers if p.get('id') not in
sent_papers and p.get('id') not in conference_sent_papers]`
(conference_subscription.py line 385). -/
def filter_new_conf (papers : List ConfPaper) (sent confSent : List String) :
    List ConfPaper :=
  papers.filter (fun p => decide (p.id ∉ sent) && decide (p.id ∉ confSent))

/-- Embeds the handling of one conference file inside
`process_conference_subscription` (conference_subscription.py lines
370-414): filter the file's papers against both delivered sets, attempt the
send when new papers exist, and on success add every truthy id to both sets.
Returns the updated sets, the batch passed to the emit stage, and whether
the send succeeded. -/
def conf_file_step (sent : List String) (sbc : List (String × List String))
    (file : ConfFile) (send_ok : Bool) :
    List String × List (String × List String) × List ConfPaper × Bool :=
  let confSent := lookupConf sbc file.conference
  let newPapers := filter_new_conf file.papers sent confSent
  if newPapers.isEmpty then (sent, sbc, [], false)
  else if send_ok then
    let ids := (newPapers.map (·.id)).filter (fun i => decide (i ≠ ""))
    (sent ++ ids, setConf sbc file.conference (confSent ++ ids), newPapers, true)
  else (sent, sbc, newPapers, false)

/-- The loop over conference files of one run, threading the in-memory sets
and the count of successfully delivered papers; returns the per-file batches
passed to the emit stage. -/
def conf_run_files (sent : List String) (sbc : List (String × List String))
    (total : Nat) : List (ConfFile × Bool) →
    List String × List (String × List String) × Nat × List (String × List ConfPaper)
  | [] => (sent, sbc, total, [])
  | (file, ok) :: rest =>
    let s := conf_file_step sent sbc file ok
    let total' := if s.2.2.2 then total + s.2.2.1.length else total
    let r := conf_run_files s.1 s.2.1 total' rest
    (r.1, r.2.1, r.2.2.1, (file.conference, s.2.2.1) :: r.2.2.2)

/-- Embeds one run of `process_conference_subscription`
(conference_subscription.py lines 353-427): process every conference file,
then save the updated history when at least one paper was delivered
(`total_new_papers > 0`).  When nothing was delivered the sets are provably
unchanged, so keeping them models the unsaved state faithfully. -/
def process_conference_subscription_run (h : ConfHistory)
    (files : List (ConfFile × Bool)) (now : String) :
    ConfHistory × List (String × List ConfPaper) :=
  let r := conf_run_files h.sent_papers h.sent_by_conference 0 files
  if 0 < r.2.2.1 then
    ({ sent_papers := r.1, sent_by_conference := r.2.1, last_sent := some now }, r.2.2.2)
  else
    ({ sent_papers := r.1, sent_by_conference := r.2.1, last_sent := h.last_sent }, r.2.2.2)

/-- A sequence of conference-channel runs. -/
def conf_runs (h : ConfHistory) :
    List (List (ConfFile × Bool) × String) →
    ConfHistory × List (List (String × List ConfPaper))
  | [] => (h, [])
  | (files, now) :: rest =>
    let s := process_conference_subscription_run h files now
    let r := conf_runs s.1 rest
    (r.1, s.2 :: r.2)

/-! ### `main.py` — AI-analysis selection scoring -/

def high_value_keywords : List String :=
  ["large language model", "foundation model", "multimodal", "reinforcement learning"]

def llm_indicators : List String :=
  ["language model", "transformer", "attention", "GPT", "BERT", "T5", "neural", "AI"]

/-- The `content` string scored by `calculate_paper_selection_score`:
lower-cased title and summary joined by a space (main.py lines 249-251). -/
def paper_content (paper : Paper) : String :=
  paper.title.toLower ++ " " ++ paper.summary.toLower

/-- The per-keyword additive bonus of `calculate_paper_selection_score`
(main.py lines 253-263): 0.15 for a matched high-value keyword, 0.1 for any
other matched keyword. -/
def kw_bonus (content : String) (keywords : List String) : ℚ :=
  (keywords.map (fun kw =>
    if strContainsSub content kw.toLower then
      if high_value_keywords.contains kw.toLower then (0.15 : ℚ) else 0.1
    else 0)).sum

/-- The recency band bonus of `calculate_paper_selection_score` (main.py
lines 265-283): 0.3 within a day, 0.2 within a week, 0.1 within a month. -/
def recency_bonus (published : Option ArxDateTime) (now : Int) : ℚ :=
  match published with
  | none => 0
  | some d =>
    let days_old := (now - d.sec).fdiv 86400
    if days_old ≤ 1 then 0.3
    else if days_old ≤ 7 then 0.2
    else if days_old ≤ 30 then 0.1
    else 0

/-- The bag-of-indicator-terms bonus of `calculate_paper_selection_score`
(main.py lines 294-297): 0.03 per present indicator, capped at 0.2. -/
def llm_bonus (content : String) : ℚ :=
  min ((llm_indicators.map (fun ind =>
    if strContainsSub content ind.toLower then (0.03 : ℚ) else 0)).sum) 0.2

/-- Embeds `calculate_paper_selection_score` (main.py lines 238-303), with
floats modelled by `ℚ`: a 0.5 base, plus the keyword bonus, the recency
band, 0.05 for 3+ authors, 0.05 for a long abstract, and the indicator
bonus; the total is capped at 1.0. -/
def calculate_paper_selection_score (paper : Paper) (keywords : List String)
    (now : Int) : ℚ :=
  min (0.5 + kw_bonus (paper_content paper) keywords
    + recency_bonus paper.published now
    + (if 3 ≤ paper.authors.length then (0.05 : ℚ) else 0)
    + (if 800 < paper.summary.length then (0.05 : ℚ) else 0)
    + llm_bonus (paper_content paper)) 1

/-- Embeds `select_papers_for_ai_analysis` (main.py lines 206-236): score
every paper, keep those at or above the threshold, rank by score descending
(stably) and take the top `max_papers`. -/
def select_papers_for_ai_analysis (papers : List Paper) (keywords : List String)
    (max_papers : Nat) (min_score_threshold : ℚ) (now : Int) : List Paper :=
  let scored := (papers.map (fun p =>
    (p, calculate_paper_selection_score p keywords now))).filter
      (fun x => decide (min_score_threshold ≤ x.2))
  ((scored.mergeSort (fun a b => decide (b.2 ≤ a.2))).take max_papers).map (·.1)

/-! ### Concrete example data used in the proofs below -/

/-- The filtered listing of one date bucket of `_fetch_in_batches`: the
dataset records inside bucket `b`'s day range, newest first. -/
def bucketPapers (ds : List SrcPaper) (now : Int) (mdo : Nat) (b : Nat) :
    List SrcPaper :=
  (apiSorted ds).filter (fun p =>
    decide (bucketLo now mdo b ≤ p.day) && decide (p.day ≤ bucketHi now b))

/-- A fixed dataset of 101 records, all submitted within the most recent
90-day bucket of day 1000 (record `i` on day `1000 - min i 89`). -/
def demoDataset : List SrcPaper :=
  (List.range 101).map (fun i => ⟨i, (1000 - min i 89 : Int)⟩)

/-- Attempt oracle under which every HTTP attempt succeeds. -/
def allOk : Nat → Nat → Nat → Bool := fun _ _ _ => true

/-- Attempt oracle under which every attempt of the page at offset 0 fails
and every other page succeeds. -/
def failPage0 : Nat → Nat → Bool := fun start _ => decide (start ≠ 0)

/-- A paper whose text contains "agent-based". -/
def agentPaper : Paper :=
  { id := "p1", title := "Multi agent-based systems",
    summary := "A survey of coordination", published := none, updated := none,
    authors := [] }

/-- A paper whose stemmed keyword phrase spans the title/abstract boundary:
the stemmed concatenated text is "graph neural network model". -/
def splitPaper : Paper :=
  { id := "p2", title := "graph neural", summary := "network models",
    published := none, updated := none, authors := [] }

/-!
## Supporting lemmas
-/

set_option maxRecDepth 10000

theorem pubKeyLE_trans (a b c : Option ArxDateTime) :
    pubKeyLE a b = true → pubKeyLE b c = true → pubKeyLE a c = true := by
  cases a <;> cases b <;> cases c <;>
    simp only [pubKeyLE, decide_eq_true_eq] <;> intros <;>
    first | rfl | omega | simp_all

theorem pubKeyLE_total (a b : Option ArxDateTime) :
    pubKeyLE a b || pubKeyLE b a := by
  cases a <;> cases b <;>
    first
    | rfl
    | (simp only [pubKeyLE, Bool.or_true, Bool.true_or, Bool.or_eq_true,
        decide_eq_true_eq]
       omega)

theorem procLE_trans (a b c : ProcessedPaper) :
    procLE a b → procLE b c → procLE a c := by
  simp only [procLE]
  intro h1 h2
  exact pubKeyLE_trans _ _ _ h2 h1

theorem procLE_total (a b : ProcessedPaper) : procLE a b || procLE b a := by
  simpa only [procLE, Bool.or_comm] using
    pubKeyLE_total b.paper.published a.paper.published

theorem pubKeyLE_refl (a : Option ArxDateTime) : pubKeyLE a a = true := by
  cases a with
  | none => rfl
  | some x => simp [pubKeyLE]

/-- The acceptance test of `process_papers`, in the spec's terms. -/
theorem passes_filter_iff (now : Int) (cfg : Config) (p : Paper) :
    passes_filter now cfg p = true ↔
      ((cfg.keywords = [] ∨ check_keywords p cfg.keywords ≠ []) ∧
       check_recency p now cfg.max_days_old = true ∧
       (∀ dr, cfg.date_range = some dr → check_date_range p (some dr) = true)) := by
  rw [passes_filter]
  cases hdr : cfg.date_range with
  | none =>
    simp [Bool.and_eq_true, Bool.or_eq_true, hdr]
  | some dr0 =>
    simp only [Bool.and_eq_true, Bool.or_eq_true, List.isEmpty_eq_true,
      Bool.not_eq_true', List.isEmpty_eq_false]
    constructor
    · rintro ⟨⟨h1, h2⟩, h3⟩
      refine ⟨h1, h2, fun dr hh => ?_⟩
      obtain rfl : dr0 = dr := by injection hh
      exact h3
    · rintro ⟨h1, h2, h3⟩
      exact ⟨⟨h1, h2⟩, h3 dr0 rfl⟩

/-- A page whose first attempt succeeds is fetched. -/
theorem pageOk_of_all (oc : Nat → Bool) (h : ∀ i, oc i = true) : pageOk oc = true := by
  simp [pageOk, request_with_retry, retryLoopAux, h 0]

/-- Case analysis of the retry loop on the first three attempt outcomes. -/
theorem retry_cases (oc : Nat → Bool) :
    request_with_retry oc =
      if oc 0 then ⟨true, 1, []⟩
      else if oc 1 then ⟨true, 2, [2]⟩
      else if oc 2 then ⟨true, 3, [2, 4]⟩
      else ⟨false, 3, [2, 4]⟩ := by
  rcases h0 : oc 0 <;> rcases h1 : oc 1 <;> rcases h2 : oc 2 <;>
    simp [request_with_retry, retryLoopAux, h0, h1, h2]

/-- When every page succeeds and the bucket's records fit under the cap, the
page loop collects exactly the bucket's listing; the invariant is that after
visiting offsets below `start` the accumulator holds the first
`min start bmax` records. -/
theorem pageLoop_collects (ds : List SrcPaper) (lo hi : Int) (bmax : Nat)
    (oc : Nat → Nat → Bool)
    (hok : ∀ s, pageOk (oc s) = true)
    (hlen : ((apiSorted ds).filter
      (fun p => decide (lo ≤ p.day) && decide (p.day ≤ hi))).length ≤ bmax) :
    ∀ (fuel start : Nat) (acc : List SrcPaper),
      bmax ≤ start + fuel * 100 →
      acc = ((apiSorted ds).filter
        (fun p => decide (lo ≤ p.day) && decide (p.day ≤ hi))).take (min start bmax) →
      batchPageLoop ds lo hi bmax oc fuel start acc =
        (apiSorted ds).filter (fun p => decide (lo ≤ p.day) && decide (p.day ≤ hi)) := by
  set F := (apiSorted ds).filter (fun p => decide (lo ≤ p.day) && decide (p.day ≤ hi))
    with hF
  intro fuel
  induction fuel with
  | zero =>
    intro start acc hfuel hacc
    have hstart : bmax ≤ start := by omega
    rw [batchPageLoop, hacc]
    rw [min_eq_right (by omega), List.take_of_length_le hlen]
  | succ fuel ih =>
    intro start acc hfuel hacc
    rw [batchPageLoop]
    rcases le_or_lt bmax start with hs | hs
    · rw [if_pos hs, hacc, min_eq_right (by omega), List.take_of_length_le hlen]
    · rw [if_neg (by omega)]
      have hal : acc.length < bmax := by
        rw [hacc, List.length_take]
        omega
      rw [if_neg (by omega), hok start, if_pos rfl]
      have hmin : min start bmax = start := by omega
      rw [hmin] at hacc
      by_cases hE : (apiQuery ds lo hi start (min 100 (bmax - start))).isEmpty
      · rw [if_pos hE]
        have hk : min 100 (bmax - start) ≠ 0 := by omega
        rw [apiQuery, ← hF] at hE
        simp only [List.isEmpty_eq_true, List.take_eq_nil_iff, hk, false_or] at hE
        rw [List.drop_eq_nil_iff] at hE
        rw [hacc, List.take_of_length_le (by omega)]
      · rw [if_neg hE]
        apply ih (start + 100) _ (by omega)
        rw [hacc, apiQuery, ← hF, ← List.take_add]
        congr 1
        omega

/-- A whole bucket is fetched when no page fails and its records fit under
the per-bucket cap. -/
theorem fetch_batch_complete (ds : List SrcPaper) (lo hi : Int) (bmax : Nat)
    (oc : Nat → Nat → Bool)
    (hok : ∀ s, pageOk (oc s) = true)
    (hlen : ((apiSorted ds).filter
      (fun p => decide (lo ≤ p.day) && decide (p.day ≤ hi))).length ≤ bmax) :
    fetch_batch ds lo hi bmax oc =
      (apiSorted ds).filter (fun p => decide (lo ≤ p.day) && decide (p.day ≤ hi)) := by
  apply pageLoop_collects ds lo hi bmax oc hok hlen
  · have := Nat.div_add_mod (bmax + 99) 100
    have := Nat.mod_lt (bmax + 99) (show 0 < 100 by norm_num)
    omega
  · simp

/-- When every bucket fits under its cap and the total stays below
`max_results`, the bucket loop returns the concatenation of all bucket
listings. -/
theorem batchLoop_all (ds : List SrcPaper) (now : Int) (mdo mr bmax : Nat)
    (oc : Nat → Nat → Nat → Bool) :
    ∀ (bs : List Nat) (acc : List SrcPaper),
      (∀ b ∈ bs, ∀ s, pageOk (oc b s) = true) →
      (∀ b ∈ bs, (bucketPapers ds now mdo b).length ≤ bmax) →
      acc.length + ((bs.map (fun b => (bucketPapers ds now mdo b).length)).sum) < mr →
      batchLoop ds now mdo mr bmax oc bs acc =
        acc ++ ((bs.map (bucketPapers ds now mdo)).flatten) := by
  intro bs
  induction bs with
  | nil => intro acc _ _ _; simp [batchLoop]
  | cons b rest ih =>
    intro acc hok hfit hsum
    rw [batchLoop]
    have hb : fetch_batch ds (bucketLo now mdo b) (bucketHi now b) bmax (oc b)
        = bucketPapers ds now mdo b := by
      apply fetch_batch_complete
      · exact hok b (by simp)
      · exact hfit b (by simp)
    rw [hb]
    simp only [List.map_cons, List.sum_cons] at hsum
    rw [if_neg (by simp; omega)]
    rw [ih (acc ++ bucketPapers ds now mdo b)
      (fun b' hb' s => hok b' (by simp [hb']) s)
      (fun b' hb' => hfit b' (by simp [hb']))
      (by simp; omega)]
    simp [List.append_assoc]

/-- Every day of the fetch window lies in some bucket's day range. -/
theorem bucket_cover (now day : Int) (mdo : Nat) (h90 : 90 < mdo)
    (h1 : now - mdo ≤ day) (h2 : day ≤ now) :
    ∃ b, b < num_batches mdo ∧ bucketLo now mdo b ≤ day ∧ day ≤ bucketHi now b := by
  have hnn : 0 ≤ now - day := by omega
  set a : Nat := (now - day).toNat with ha
  have haeq : (a : Int) = now - day := Int.toNat_of_nonneg hnn
  have hamdo : a ≤ mdo := by omega
  have hk := Nat.div_add_mod a 90
  have hk2 : a % 90 < 90 := Nat.mod_lt _ (by norm_num)
  have hn := Nat.div_add_mod (mdo + 89) 90
  have hn2 : (mdo + 89) % 90 < 90 := Nat.mod_lt _ (by norm_num)
  rw [num_batches]
  refine ⟨min (a / 90) ((mdo + 90 - 1) / 90 - 1), by omega, ?_, ?_⟩
  · rw [bucketLo]
    push_cast
    omega
  · rw [bucketHi]
    push_cast
    omega

/-- A paper emitted by `filter_new` was not in the delivered set. -/
theorem filter_new_not_sent (papers : List RssPaper) (sent : List String)
    (p : RssPaper) (hp : p ∈ filter_new papers sent) : p.guid ∉ sent := by
  rw [filter_new, List.mem_filter] at hp
  simpa using hp.2

/-- Whatever a feed run passes to the emit stage came from `filter_new`. -/
theorem email_step_emitted_sub (h : EmailHistory) (papers : List RssPaper)
    (ok : Bool) (now : String) (p : RssPaper)
    (hp : p ∈ (run_subscription_step h papers ok now).2.1) :
    p ∈ filter_new papers h.sent_papers := by
  rw [run_subscription_step] at hp
  split at hp
  · simp at hp
  · split at hp <;> exact hp

/-- A feed run never removes an id from the delivered set. -/
theorem email_step_sent_mono (h : EmailHistory) (papers : List RssPaper)
    (ok : Bool) (now : String) (g : String) (hg : g ∈ h.sent_papers) :
    g ∈ (run_subscription_step h papers ok now).1.sent_papers := by
  rw [run_subscription_step]
  split
  · exact hg
  · split
    · exact List.mem_append_left _ hg
    · exact hg

/-- An id in the loaded feed history is never emitted by any sequence of
later feed runs. -/
theorem email_runs_excl (inputs : List (List RssPaper × Bool × String)) :
    ∀ (h : EmailHistory) (g : String), g ∈ h.sent_papers →
      ∀ batch ∈ (email_runs h inputs).2, ∀ q ∈ batch, q.guid ≠ g := by
  induction inputs with
  | nil => intro h g _ batch hb; simp [email_runs] at hb
  | cons x rest ih =>
    intro h g hg batch hb q hq
    obtain ⟨papers, ok, now⟩ := x
    rw [email_runs] at hb
    simp only [List.mem_cons] at hb
    rcases hb with rfl | hb
    · intro hgq
      exact filter_new_not_sent papers h.sent_papers q
        (email_step_emitted_sub h papers ok now q hq) (hgq ▸ hg)
    · exact ih (run_subscription_step h papers ok now).1 g
        (email_step_sent_mono h papers ok now g hg) batch hb q hq

/-- Whatever a conference file step passes to the emit stage came from the
double `filter_new`. -/
theorem conf_step_emitted_sub (sent : List String) (sbc : List (String × List String))
    (file : ConfFile) (ok : Bool) (p : ConfPaper)
    (hp : p ∈ (conf_file_step sent sbc file ok).2.2.1) :
    p ∈ filter_new_conf file.papers sent (lookupConf sbc file.conference) := by
  rw [conf_file_step] at hp
  split at hp
  · simp at hp
  · split at hp <;> exact hp

/-- A paper emitted by the conference filter was in neither delivered set. -/
theorem filter_new_conf_not_sent (papers : List ConfPaper) (sent confSent : List String)
    (p : ConfPaper) (hp : p ∈ filter_new_conf papers sent confSent) :
    p.id ∉ sent ∧ p.id ∉ confSent := by
  rw [filter_new_conf, List.mem_filter] at hp
  have h2 := hp.2
  simp only [Bool.and_eq_true, decide_eq_true_eq] at h2
  exact h2

/-- A conference file step never removes an id from the global set. -/
theorem conf_step_sent_mono (sent : List String) (sbc : List (String × List String))
    (file : ConfFile) (ok : Bool) (g : String) (hg : g ∈ sent) :
    g ∈ (conf_file_step sent sbc file ok).1 := by
  rw [conf_file_step]
  split
  · exact hg
  · split
    · exact List.mem_append_left _ hg
    · exact hg

theorem find_map_update_self (m : List (String × List String)) (c : String)
    (v : List String)
    (hfind : (m.find? (fun e => decide (e.1 = c))).isSome) :
    (m.map (fun e => if e.1 = c then (e.1, v) else e)).find?
      (fun e => decide (e.1 = c)) = some (c, v) := by
  induction m with
  | nil => simp at hfind
  | cons x xs ih =>
    by_cases hx : x.1 = c
    · simp only [List.map_cons, if_pos hx]
      rw [List.find?_cons_of_pos _ (by simpa using hx), hx]
    · simp only [List.map_cons, if_neg hx]
      rw [List.find?_cons_of_neg _ (by simpa using hx)]
      apply ih
      rwa [List.find?_cons_of_neg _ (by simpa using hx)] at hfind

theorem lookup_map_update_ne (m : List (String × List String)) (c c' : String)
    (v : List String) (hne : c' ≠ c) :
    lookupConf (m.map (fun e => if e.1 = c' then (e.1, v) else e)) c
      = lookupConf m c := by
  rw [lookupConf, lookupConf, List.find?_map]
  have hpred : ((fun e : String × List String => decide (e.1 = c)) ∘
      (fun e => if e.1 = c' then (e.1, v) else e))
      = (fun e : String × List String => decide (e.1 = c)) := by
    funext e
    by_cases h : e.1 = c' <;> simp [h]
  rw [hpred]
  cases hfind : m.find? (fun e : String × List String => decide (e.1 = c)) with
  | none => simp
  | some e =>
    have he : e.1 = c := by simpa using List.find?_some hfind
    have hne2 : ¬ e.1 = c' := by rw [he]; exact fun hh => hne hh.symm
    simp [Option.map, if_neg hne2]

/-- Updating a conference's set makes exactly that set visible. -/
theorem lookup_setConf_self (m : List (String × List String)) (c : String)
    (v : List String) : lookupConf (setConf m c v) c = v := by
  rw [setConf]
  split
  · next hfind =>
    rw [lookupConf, find_map_update_self m c v hfind]
  · next hfind =>
    have hnone : m.find? (fun e : String × List String => decide (e.1 = c)) = none := by
      cases h : m.find? (fun e : String × List String => decide (e.1 = c)) with
      | none => rfl
      | some e => rw [h] at hfind; simp at hfind
    rw [lookupConf, List.find?_append, hnone, Option.none_or]
    simp [List.find?]

/-- Updating one conference's set leaves the others' sets unchanged. -/
theorem lookup_setConf_ne (m : List (String × List String)) (c c' : String)
    (v : List String) (hne : c' ≠ c) :
    lookupConf (setConf m c' v) c = lookupConf m c := by
  rw [setConf]
  split
  · exact lookup_map_update_ne m c c' v hne
  · rw [lookupConf, lookupConf, List.find?_append]
    cases hfind : m.find? (fun e : String × List String => decide (e.1 = c)) with
    | some e => simp
    | none => simp [List.find?, hne]

/-- A conference file step never removes an id from any per-conference set. -/
theorem conf_step_conf_mono (sent : List String) (sbc : List (String × List String))
    (file : ConfFile) (ok : Bool) (c : String) (g : String)
    (hg : g ∈ lookupConf sbc c) :
    g ∈ lookupConf (conf_file_step sent sbc file ok).2.1 c := by
  rw [conf_file_step]
  split
  · exact hg
  · split
    · by_cases hc : file.conference = c
      · subst hc
        rw [lookup_setConf_self]
        exact List.mem_append_left _ hg
      · rw [lookup_setConf_ne _ _ _ _ hc]
        exact hg
    · exact hg

theorem conf_files_sent_mono (files : List (ConfFile × Bool)) :
    ∀ (sent : List String) (sbc : List (String × List String)) (total : Nat)
      (g : String), g ∈ sent → g ∈ (conf_run_files sent sbc total files).1 := by
  induction files with
  | nil => intro sent sbc total g hg; exact hg
  | cons x rest ih =>
    intro sent sbc total g hg
    exact ih _ _ _ g (conf_step_sent_mono sent sbc x.1 x.2 g hg)

theorem conf_files_conf_mono (files : List (ConfFile × Bool)) :
    ∀ (sent : List String) (sbc : List (String × List String)) (total : Nat)
      (c g : String), g ∈ lookupConf sbc c →
      g ∈ lookupConf (conf_run_files sent sbc total files).2.1 c := by
  induction files with
  | nil => intro sent sbc total c g hg; exact hg
  | cons x rest ih =>
    intro sent sbc total c g hg
    exact ih _ _ _ c g (conf_step_conf_mono sent sbc x.1 x.2 c g hg)

/-- An id in the loaded global set is never emitted by the file loop. -/
theorem conf_files_excl_global (files : List (ConfFile × Bool)) :
    ∀ (sent : List String) (sbc : List (String × List String)) (total : Nat)
      (g : String), g ∈ sent →
      ∀ pair ∈ (conf_run_files sent sbc total files).2.2.2, ∀ q ∈ pair.2, q.id ≠ g := by
  induction files with
  | nil => intro sent sbc total g _ pair hp; simp [conf_run_files] at hp
  | cons x rest ih =>
    intro sent sbc total g hg pair hp q hq
    rw [conf_run_files] at hp
    simp only [List.mem_cons] at hp
    rcases hp with rfl | hp
    · intro hgq
      have hsub := conf_step_emitted_sub sent sbc x.1 x.2 q hq
      exact (filter_new_conf_not_sent _ _ _ q hsub).1 (hgq ▸ hg)
    · exact ih _ _ _ g (conf_step_sent_mono sent sbc x.1 x.2 g hg) pair hp q hq

/-- An id in a conference's loaded set is never emitted again for that
conference by the file loop. -/
theorem conf_files_excl_conf (files : List (ConfFile × Bool)) :
    ∀ (sent : List String) (sbc : List (String × List String)) (total : Nat)
      (c g : String), g ∈ lookupConf sbc c →
      ∀ batch, (c, batch) ∈ (conf_run_files sent sbc total files).2.2.2 →
        ∀ q ∈ batch, q.id ≠ g := by
  induction files with
  | nil => intro sent sbc total c g _ batch hb; simp [conf_run_files] at hb
  | cons x rest ih =>
    intro sent sbc total c g hg batch hb q hq
    rw [conf_run_files] at hb
    simp only [List.mem_cons] at hb
    rcases hb with hb | hb
    · obtain ⟨hc, hbatch⟩ : x.1.conference = c ∧
          (conf_file_step sent sbc x.1 x.2).2.2.1 = batch := by
        constructor <;> injection hb <;> simp_all
      subst hbatch
      intro hgq
      have hsub := conf_step_emitted_sub sent sbc x.1 x.2 q hq
      exact (filter_new_conf_not_sent _ _ _ q hsub).2 (hgq ▸ (hc ▸ hg))
    · exact ih _ _ _ c g (conf_step_conf_mono sent sbc x.1 x.2 c g hg) batch hb q hq

/-- The saved history and emitted batches of one conference run, whether or
not the save was triggered. -/
theorem conf_run_proj (h : ConfHistory) (files : List (ConfFile × Bool)) (now : String) :
    (process_conference_subscription_run h files now).1.sent_papers
        = (conf_run_files h.sent_papers h.sent_by_conference 0 files).1
      ∧ (process_conference_subscription_run h files now).1.sent_by_conference
        = (conf_run_files h.sent_papers h.sent_by_conference 0 files).2.1
      ∧ (process_conference_subscription_run h files now).2
        = (conf_run_files h.sent_papers h.sent_by_conference 0 files).2.2.2 := by
  rw [process_conference_subscription_run]
  split <;> exact ⟨rfl, rfl, rfl⟩

/-- An id in the loaded conference history is never emitted by any sequence
of later conference runs. -/
theorem conf_runs_excl_global (inputs : List (List (ConfFile × Bool) × String)) :
    ∀ (h : ConfHistory) (g : String), g ∈ h.sent_papers →
      ∀ runBatches ∈ (conf_runs h inputs).2, ∀ pair ∈ runBatches, ∀ q ∈ pair.2,
        q.id ≠ g := by
  induction inputs with
  | nil => intro h g _ rb hrb; simp [conf_runs] at hrb
  | cons x rest ih =>
    intro h g hg rb hrb pair hp q hq
    obtain ⟨files, now⟩ := x
    rw [conf_runs] at hrb
    simp only [List.mem_cons] at hrb
    rcases hrb with rfl | hrb
    · rw [(conf_run_proj h files now).2.2] at hp
      exact conf_files_excl_global files _ _ _ g hg pair hp q hq
    · apply ih (process_conference_subscription_run h files now).1 g ?_ rb hrb pair hp q hq
      rw [(conf_run_proj h files now).1]
      exact conf_files_sent_mono files _ _ _ g hg

/-- An id in a conference's persisted set is never emitted again for that
conference by any sequence of later runs. -/
theorem conf_runs_excl_conf (inputs : List (List (ConfFile × Bool) × String)) :
    ∀ (h : ConfHistory) (c g : String), g ∈ lookupConf h.sent_by_conference c →
      ∀ runBatches ∈ (conf_runs h inputs).2, ∀ batch, (c, batch) ∈ runBatches →
        ∀ q ∈ batch, q.id ≠ g := by
  induction inputs with
  | nil => intro h c g _ rb hrb; simp [conf_runs] at hrb
  | cons x rest ih =>
    intro h c g hg rb hrb batch hb q hq
    obtain ⟨files, now⟩ := x
    rw [conf_runs] at hrb
    simp only [List.mem_cons] at hrb
    rcases hrb with rfl | hrb
    · rw [(conf_run_proj h files now).2.2] at hb
      exact conf_files_excl_conf files _ _ _ c g hg batch hb q hq
    · apply ih (process_conference_subscription_run h files now).1 c g ?_ rb hrb batch hb q hq
      rw [(conf_run_proj h files now).2.1]
      exact conf_files_conf_mono files _ _ _ c g hg

theorem kw_bonus_nonneg (content : String) (kws : List String) :
    0 ≤ kw_bonus content kws := by
  apply List.sum_nonneg
  intro x hx
  obtain ⟨kw, _, rfl⟩ := List.mem_map.1 hx
  split <;> [skip; norm_num]
  split <;> norm_num

theorem recency_bonus_nonneg (pub : Option ArxDateTime) (now : Int) :
    0 ≤ recency_bonus pub now := by
  cases pub with
  | none => simp [recency_bonus]
  | some d =>
    simp only [recency_bonus]
    split <;> [norm_num; split <;> [norm_num; split <;> norm_num]]

theorem llm_bonus_nonneg (content : String) : 0 ≤ llm_bonus content := by
  rw [llm_bonus, le_min_iff]
  refine ⟨List.sum_nonneg ?_, by norm_num⟩
  intro x hx
  obtain ⟨ind, _, rfl⟩ := List.mem_map.1 hx
  split <;> norm_num

/-- The selection score always lies in `[0.5, 1]`. -/
theorem score_bounds (p : Paper) (kws : List String) (now : Int) :
    (1/2 : ℚ) ≤ calculate_paper_selection_score p kws now
      ∧ calculate_paper_selection_score p kws now ≤ 1 := by
  constructor
  · rw [calculate_paper_selection_score, le_min_iff]
    have h1 := kw_bonus_nonneg (paper_content p) kws
    have h2 := recency_bonus_nonneg p.published now
    have h3 := llm_bonus_nonneg (paper_content p)
    constructor
    · have h4 : (0:ℚ) ≤ (if 3 ≤ p.authors.length then (0.05 : ℚ) else 0) := by
        split <;> norm_num
      have h5 : (0:ℚ) ≤ (if 800 < p.summary.length then (0.05 : ℚ) else 0) := by
        split <;> norm_num
      linarith
    · norm_num
  · exact min_le_right _ _

/-!
## The claims
-/

/-- Claim C1: at-most-once delivery per channel.  An id present in the
loaded feed-channel history is excluded by `filter_new` and never passed to
the emit stage by any later run; a successful send records every emitted
guid in the saved history, and hence its batch is never re-emitted by any
continuation of runs.  For the conference channel the same holds for the
global delivered set and for the per-conference set, and a successful file
step records every truthy emitted id.  (The model persists the in-memory
history across runs, which is the claim's proviso that `save` completed
after each `record_delivered`.) -/
theorem c1_at_most_once_delivery :
    (∀ (h : EmailHistory) (g : String), g ∈ h.sent_papers →
      ∀ (inputs : List (List RssPaper × Bool × String)),
        ∀ batch ∈ (email_runs h inputs).2, ∀ q ∈ batch, q.guid ≠ g)
    ∧ (∀ (h : EmailHistory) (papers : List RssPaper) (now : String) (p : RssPaper),
        p ∈ (run_subscription_step h papers true now).2.1 →
        p.guid ∈ (run_subscription_step h papers true now).1.sent_papers)
    ∧ (∀ (h : EmailHistory) (papers : List RssPaper) (now : String)
        (rest : List (List RssPaper × Bool × String)) (p : RssPaper),
        p ∈ (run_subscription_step h papers true now).2.1 →
        ∀ batch ∈ (email_runs (run_subscription_step h papers true now).1 rest).2,
          ∀ q ∈ batch, q.guid ≠ p.guid)
    ∧ (∀ (h : ConfHistory) (g : String), g ∈ h.sent_papers →
      ∀ (inputs : List (List (ConfFile × Bool) × String)),
        ∀ runBatches ∈ (conf_runs h inputs).2, ∀ pair ∈ runBatches, ∀ q ∈ pair.2,
          q.id ≠ g)
    ∧ (∀ (h : ConfHistory) (c g : String), g ∈ lookupConf h.sent_by_conference c →
      ∀ (inputs : List (List (ConfFile × Bool) × String)),
        ∀ runBatches ∈ (conf_runs h inputs).2, ∀ batch, (c, batch) ∈ runBatches →
          ∀ q ∈ batch, q.id ≠ g)
    ∧ (∀ (sent : List String) (sbc : List (String × List String)) (file : ConfFile)
        (p : ConfPaper), p ∈ (conf_file_step sent sbc file true).2.2.1 →
        p.id ≠ "" → p.id ∈ (conf_file_step sent sbc file true).1) := by
  have hrec : ∀ (h : EmailHistory) (papers : List RssPaper) (now : String) (p : RssPaper),
      p ∈ (run_subscription_step h papers true now).2.1 →
      p.guid ∈ (run_subscription_step h papers true now).1.sent_papers := by
    intro h papers now p hp
    rw [run_subscription_step] at hp ⊢
    split at hp
    · simp at hp
    · next hne =>
      rw [if_neg hne, if_pos rfl]
      rw [if_pos rfl] at hp
      rw [record_delivered]
      exact List.mem_append_right _ (List.mem_map.2 ⟨p, hp, rfl⟩)
  refine ⟨?_, hrec, ?_, ?_, ?_, ?_⟩
  · intro h g hg inputs
    exact email_runs_excl inputs h g hg
  · intro h papers now rest p hp
    exact email_runs_excl rest _ p.guid (hrec h papers now p hp)
  · intro h g hg inputs
    exact conf_runs_excl_global inputs h g hg
  · intro h c g hg inputs
    exact conf_runs_excl_conf inputs h c g hg
  · intro sent sbc file p hp hid
    rw [conf_file_step] at hp ⊢
    split at hp
    · simp at hp
    · next hne =>
      rw [if_neg hne, if_pos rfl]
      rw [if_pos rfl] at hp
      apply List.mem_append_right
      rw [List.mem_filter]
      exact ⟨List.mem_map.2 ⟨p, hp, rfl⟩, by simpa using hid⟩

/-- Witness for C1 at a concrete history and run sequence: with `"g1"`
already delivered, a run over two papers emits only the paper with guid
`"g2"`, whose guid therefore differs from `"g1"`. -/
theorem c1_at_most_once_delivery_witness :
    ("g1" : String) ∈ (⟨["g1"], none⟩ : EmailHistory).sent_papers
    ∧ (⟨"t2", "l2", "d2", "g2", "pd2"⟩ : RssPaper).guid ≠ "g1" := by
  refine ⟨by decide, ?_⟩
  exact c1_at_most_once_delivery.1 ⟨["g1"], none⟩ "g1" (by decide)
    [([⟨"t1", "l1", "d1", "g1", "pd1"⟩, ⟨"t2", "l2", "d2", "g2", "pd2"⟩], true, "ts")]
    [⟨"t2", "l2", "d2", "g2", "pd2"⟩] (by decide)
    ⟨"t2", "l2", "d2", "g2", "pd2"⟩ (by decide)

/-- Claim C2: a paper appears in the output of `process_papers` iff the
configured keyword list is empty or some keyword matches it, it passes the
recency check, and it passes the date-range check (vacuous when no
`date_range` is configured); the output elements are the augmented copies of
exactly those input papers. -/
theorem c2_process_papers_filter (now : Int) (papers : List Paper) (cfg : Config)
    (q : ProcessedPaper) :
    q ∈ process_papers now papers cfg ↔
      ∃ p, p ∈ papers ∧ q = processOne now cfg p ∧
        (cfg.keywords = [] ∨ check_keywords p cfg.keywords ≠ []) ∧
        check_recency p now cfg.max_days_old = true ∧
        (∀ dr, cfg.date_range = some dr → check_date_range p (some dr) = true) := by
  rw [process_papers, List.mem_mergeSort]
  constructor
  · intro hq
    obtain ⟨p, hp, rfl⟩ := List.mem_map.1 hq
    obtain ⟨hpm, hpf⟩ := List.mem_filter.1 hp
    exact ⟨p, hpm, rfl, (passes_filter_iff now cfg p).1 hpf⟩
  · rintro ⟨p, hpm, rfl, hc⟩
    exact List.mem_map.2 ⟨p, List.mem_filter.2 ⟨hpm, (passes_filter_iff now cfg p).2 hc⟩, rfl⟩

/-- Witness for C2 at a concrete input: a fresh paper with an empty keyword
list is accepted, so its augmented copy is in the output. -/
theorem c2_process_papers_filter_witness :
    processOne 86400 ⟨[], 30, none⟩
        ⟨"w2", "t", "s", some ⟨2025, 1, 0⟩, none, []⟩ ∈
      process_papers 86400 [⟨"w2", "t", "s", some ⟨2025, 1, 0⟩, none, []⟩]
        ⟨[], 30, none⟩ := by
  refine (c2_process_papers_filter 86400 _ _ _).2
    ⟨⟨"w2", "t", "s", some ⟨2025, 1, 0⟩, none, []⟩, by decide, rfl, Or.inl rfl,
      by decide, fun dr h => by cases h⟩

/-- Claim C3: `check_recency` computes the integer day age from the newer of
published/updated, clamps negative (future) ages to 0, and accepts iff the
clamped age is at most `max_days_old`; a paper aged exactly `max_days_old`
is accepted, one aged `max_days_old + 1` is rejected, and a future-dated
paper is always accepted (for a nonnegative `max_days_old`). -/
theorem c3_recency_boundary (p : Paper) (pub : ArxDateTime)
    (now max_days_old : Int) (d : ArxDateTime) (age : Int)
    (hpub : p.published = some pub)
    (hd : d = (match p.updated with
      | some u => if pub.sec < u.sec then u else pub
      | none => pub))
    (hage : age = (now - d.sec).fdiv 86400) :
    (check_recency p now max_days_old = decide (max age 0 ≤ max_days_old))
    ∧ (0 ≤ max_days_old → age = max_days_old →
        check_recency p now max_days_old = true)
    ∧ (age = max_days_old + 1 → check_recency p now max_days_old = false)
    ∧ (0 ≤ max_days_old → now < d.sec → check_recency p now max_days_old = true) := by
  have hcr : check_recency p now max_days_old
      = decide ((if age < 0 then 0 else age) ≤ max_days_old) := by
    rw [check_recency, hpub, hage, hd]
  have hmax : (if age < 0 then 0 else age) = max age 0 := by
    split <;> omega
  refine ⟨by rw [hcr, hmax], ?_, ?_, ?_⟩
  · intro h1 h2
    rw [hcr, hmax]
    simp only [decide_eq_true_eq]
    omega
  · intro h1
    rw [hcr, hmax]
    simp only [decide_eq_false_iff_not]
    omega
  · intro h1 h2
    have hneg : age < 0 := by
      have : (now - d.sec) / 86400 < 0 := by omega
      rw [hage, Int.fdiv_eq_ediv _ (by norm_num : (0:Int) ≤ 86400)]
      exact this
    rw [hcr, hmax]
    simp only [decide_eq_true_eq]
    omega

/-- Witness for C3 at a concrete paper: a paper published exactly 5 days
before `now` is accepted with `max_days_old = 5`. -/
theorem c3_recency_boundary_witness :
    check_recency ⟨"w3", "t", "s", some ⟨2025, 1, 0⟩, none, []⟩ (86400 * 5) 5
      = true :=
  (c3_recency_boundary ⟨"w3", "t", "s", some ⟨2025, 1, 0⟩, none, []⟩
    ⟨2025, 1, 0⟩ (86400 * 5) 5 ⟨2025, 1, 0⟩ 5 rfl rfl (by decide)).2.1
    (by norm_num) rfl

/-- Counterexample to C4 as stated: for the paper with title `"graph
neural"` and abstract `"network models"` and the keyword `"neural
network"`, the stemmed keyword phrase is a substring of the stemmed
concatenated paper text (title + abstract), yet `check_keywords` reports no
match — matching is done against the stemmed title and the stemmed abstract
separately, so a phrase spanning the boundary never matches. -/
theorem c4_keyword_stemming_counterexample :
    strContainsSub (stem_text (splitPaper.title ++ " " ++ splitPaper.summary))
        (stem_text "neural network") = true
    ∧ check_keywords splitPaper ["neural network"] = [] := by
  constructor <;> decide

/-- Claim C4 (amended): a keyword matches iff its stemmed token signature is
a substring of the stemmed title or of the stemmed abstract (not of their
concatenation); in particular keyword "agents" matches a paper whose text
contains "agent-based", stemming sends "agents" to "agent", and
"reinforcement learning" and "reinforcement-learning" have equal stemmed
signatures. -/
theorem c4_keyword_stemming_per_field :
    (∀ (p : Paper) (keywords : List String) (kw : String),
      kw ∈ check_keywords p keywords ↔
        kw ∈ keywords ∧
          (strContainsSub (stem_text p.title) (stem_text kw) = true
            ∨ strContainsSub (stem_text p.summary) (stem_text kw) = true))
    ∧ check_keywords agentPaper ["agents"] = ["agents"]
    ∧ stem_text "agents" = "agent"
    ∧ stem_text "agent-based" = "agent base"
    ∧ stem_text "reinforcement learning" = stem_text "reinforcement-learning" := by
  refine ⟨?_, by decide, by decide, by decide, by decide⟩
  intro p keywords kw
  rw [check_keywords]
  split
  · next hemp =>
    simp only [List.isEmpty_eq_true] at hemp
    simp [hemp]
  · simp [List.mem_filter, Bool.or_eq_true]

/-- Witness for C4 at a concrete input: the keyword "agents" is reported as
a match for `agentPaper`, whose title contains "agent-based". -/
theorem c4_keyword_stemming_per_field_witness :
    ("agents" : String) ∈ check_keywords agentPaper ["agents"] :=
  (c4_keyword_stemming_per_field.1 agentPaper ["agents"] "agents").2
    ⟨by decide, Or.inl (by decide)⟩

/-- Claim C5: with a configured (nonempty) `date_range`, `check_date_range`
accepts iff the paper has a publication date whose year matches the given
year (if any) and whose month matches the given month (if any); a paper
with no publication date is always rejected. -/
theorem c5_date_range_composition (p : Paper) (dr : DateRange) :
    (check_date_range p (some dr) = true ↔
      ∃ d, p.published = some d
        ∧ (∀ y, dr.year = some y → d.year = y)
        ∧ (∀ m, dr.month = some m → d.month = m))
    ∧ (p.published = none → check_date_range p (some dr) = false) := by
  constructor
  · cases hp : p.published with
    | none => simp [check_date_range, hp]
    | some d0 =>
      cases hy : dr.year <;> cases hm : dr.month <;>
        simp [check_date_range, hp, hy, hm]
  · intro h
    simp [check_date_range, h]

/-- Witness for C5 at a concrete input: with `{year := 2025, month := 5}`
configured, a paper without a publication date is rejected. -/
theorem c5_date_range_composition_witness :
    check_date_range ⟨"w5", "t", "s", none, none, []⟩
      (some ⟨some 2025, some 5⟩) = false :=
  (c5_date_range_composition ⟨"w5", "t", "s", none, none, []⟩
    ⟨some 2025, some 5⟩).2 rfl

/-- Counterexample to C6 as stated: on `demoDataset` with a per-batch cap of
200, every attempt for the page at offset 0 fails (the retry budget is
exhausted), yet the batch is not aborted: the page at offset 100 is still
fetched and its record is returned as the batch's result. -/
theorem c6_retry_counterexample :
    pageOk (failPage0 0) = false
    ∧ fetch_batch demoDataset 910 1000 200 failPage0 = [⟨100, 911⟩] := by
  constructor <;> decide

/-- Claim C6 (amended): every page request is attempted at most 3 times,
the retry loop fails exactly when all 3 attempts fail, and the i-th backoff
sleep before a retry is `2 ^ (i+1)` seconds; when a page's retries are
exhausted the error is caught, that page is skipped and the batch continues
with the next offset; and the bucket loop only ever appends, so the results
of already-completed batches are kept. -/
theorem c6_retry_and_page_isolation :
    (∀ oc : Nat → Bool,
      (request_with_retry oc).attempts ≤ 3
      ∧ ((request_with_retry oc).ok = false ↔
          (oc 0 = false ∧ oc 1 = false ∧ oc 2 = false))
      ∧ (request_with_retry oc).sleeps =
          (List.range ((request_with_retry oc).attempts - 1)).map (fun i => 2 ^ (i + 1)))
    ∧ (∀ (ds : List SrcPaper) (lo hi : Int) (bmax : Nat) (oc' : Nat → Nat → Bool)
        (fuel start : Nat) (acc : List SrcPaper),
        pageOk (oc' start) = false →
        batchPageLoop ds lo hi bmax oc' (fuel + 1) start acc =
          if bmax ≤ start ∨ bmax ≤ acc.length then acc
          else batchPageLoop ds lo hi bmax oc' fuel (start + 100) acc)
    ∧ (∀ (ds : List SrcPaper) (now : Int) (mdo mr bmax : Nat)
        (oc'' : Nat → Nat → Nat → Bool) (bs : List Nat) (acc : List SrcPaper),
        ∃ t, batchLoop ds now mdo mr bmax oc'' bs acc = acc ++ t) := by
  refine ⟨?_, ?_, ?_⟩
  · intro oc
    rw [retry_cases oc]
    rcases h0 : oc 0 <;> rcases h1 : oc 1 <;> rcases h2 : oc 2 <;>
      simp [List.range_succ]
  · intro ds lo hi bmax oc' fuel start acc hfail
    rw [batchPageLoop]
    rcases le_or_lt bmax start with hs | hs
    · rw [if_pos hs, if_pos (Or.inl hs)]
    · rw [if_neg (by omega)]
      rcases le_or_lt bmax acc.length with ha | ha
      · rw [if_pos ha, if_pos (Or.inr ha)]
      · rw [if_neg (by omega), hfail, if_neg (by simp),
          if_neg (by omega : ¬(bmax ≤ start ∨ bmax ≤ acc.length))]
  · intro ds now mdo mr bmax oc'' bs acc
    induction bs generalizing acc with
    | nil => exact ⟨[], by simp [batchLoop]⟩
    | cons b rest ih =>
      rw [batchLoop]
      rcases le_or_lt mr
        (acc ++ fetch_batch ds (bucketLo now mdo b) (bucketHi now b) bmax
          (oc'' b)).length with h | h
      · exact ⟨_, by rw [if_pos h]⟩
      · obtain ⟨t, ht⟩ := ih
          (acc ++ fetch_batch ds (bucketLo now mdo b) (bucketHi now b) bmax (oc'' b))
        refine ⟨fetch_batch ds (bucketLo now mdo b) (bucketHi now b) bmax (oc'' b)
          ++ t, ?_⟩
        rw [if_neg (by omega), ht, List.append_assoc]

/-- Witness for C6 at a concrete input: the failing page at offset 0 is
skipped and the loop continues at offset 100 over an empty dataset. -/
theorem c6_retry_and_page_isolation_witness :
    batchPageLoop ([] : List SrcPaper) 0 0 100 failPage0 (0 + 1) 0 [] =
      if 100 ≤ 0 ∨ 100 ≤ ([] : List SrcPaper).length then []
      else batchPageLoop ([] : List SrcPaper) 0 0 100 failPage0 0 (0 + 100) [] :=
  c6_retry_and_page_isolation.2.1 [] 0 0 100 failPage0 0 0 [] (by decide)

/-- Counterexample to C7 as stated: over the fixed dataset `demoDataset`
(101 records inside the newest bucket), a bucketed fetch of a 200-day window
with `max_results = 301` has a per-bucket cap of 100, so the union of its
bucket results misses record 100, which the non-bucketed fetch of the whole
window contains — the superset property fails. -/
theorem c7_bucketed_fetch_counterexample :
    (⟨100, 911⟩ : SrcPaper) ∈ spec_whole_window_fetch demoDataset 1000 200
    ∧ ((fetch_in_batches demoDataset 1000 301 200 allOk).map SrcPaper.id).contains 100
        = false := by
  constructor <;> decide

/-- Claim C7 (amended): for `max_days_old > 90` the fetch uses exactly
`ceil(max_days_old / 90)` buckets — 3 for a 200-day window — processed
most-recent-first; and provided no attempt fails, every bucket's window
contents fit under the per-bucket cap, and the total stays below
`max_results` (so neither the per-bucket cap nor the early-termination check
truncates), the union of bucket results contains, by id, every record of a
single non-bucketed fetch of the whole window. -/
theorem c7_bucketed_fetch_superset (ds : List SrcPaper) (now : Int) (mr mdo : Nat)
    (oc : Nat → Nat → Nat → Bool)
    (h90 : 90 < mdo)
    (hok : ∀ b s i, oc b s i = true)
    (hfit : ∀ b, b < num_batches mdo →
      (bucketPapers ds now mdo b).length ≤ batch_max_results mr (num_batches mdo))
    (hsum : (((List.range (num_batches mdo)).map
        (fun b => (bucketPapers ds now mdo b).length)).sum) < mr) :
    num_batches 200 = 3
    ∧ mdo ≤ num_batches mdo * 90
    ∧ (num_batches mdo - 1) * 90 < mdo
    ∧ (∀ b b' : Nat, b < b' → bucketHi now b' < bucketHi now b)
    ∧ (∀ p ∈ spec_whole_window_fetch ds now mdo,
        p.id ∈ (fetch_in_batches ds now mr mdo oc).map SrcPaper.id) := by
  refine ⟨by decide, ?_, ?_, ?_, ?_⟩
  · rw [num_batches]
    have := Nat.div_add_mod (mdo + 89) 90
    have := Nat.mod_lt (mdo + 89) (show 0 < 90 by norm_num)
    omega
  · rw [num_batches]
    have := Nat.div_add_mod (mdo + 89) 90
    have := Nat.mod_lt (mdo + 89) (show 0 < 90 by norm_num)
    omega
  · intro b b' hbb
    rw [bucketHi, bucketHi]
    push_cast
    omega
  · intro p hp
    rw [spec_whole_window_fetch, List.mem_filter] at hp
    obtain ⟨hpm, hpw⟩ := hp
    simp only [Bool.and_eq_true, decide_eq_true_eq] at hpw
    obtain ⟨b, hbn, hblo, hbhi⟩ := bucket_cover now p.day mdo h90 hpw.1 hpw.2
    have hpb : p ∈ bucketPapers ds now mdo b := by
      rw [bucketPapers, List.mem_filter]
      refine ⟨hpm, ?_⟩
      simp only [Bool.and_eq_true, decide_eq_true_eq]
      exact ⟨hblo, hbhi⟩
    rw [fetch_in_batches, batchLoop_all ds now mdo mr _ oc
      (List.range (num_batches mdo)) []
      (fun b' _ s => pageOk_of_all _ (fun i => hok b' s i))
      (fun b' hb' => hfit b' (List.mem_range.1 hb'))
      (by simpa using hsum)]
    simp only [List.nil_append, List.mem_map]
    refine ⟨p, ?_, rfl⟩
    rw [List.mem_flatten]
    exact ⟨bucketPapers ds now mdo b, List.mem_map.2 ⟨b, List.mem_range.2 hbn, rfl⟩, hpb⟩

/-- Witness for C7 at a concrete input: for a one-record dataset inside a
200-day window, the record's id is returned by the bucketed fetch. -/
theorem c7_bucketed_fetch_superset_witness :
    (⟨0, 995⟩ : SrcPaper) ∈ spec_whole_window_fetch [⟨0, 995⟩] 1000 200
    ∧ 0 ∈ (fetch_in_batches [⟨0, 995⟩] 1000 301 200 allOk).map SrcPaper.id := by
  refine ⟨by decide, ?_⟩
  exact (c7_bucketed_fetch_superset [⟨0, 995⟩] 1000 301 200 allOk (by norm_num)
    (fun b s i => rfl) (by decide) (by decide)).2.2.2.2 ⟨0, 995⟩ (by decide)

/-- Claim C8: the delivery history is extended only on a successful emit.
A failed feed send leaves the history unchanged (and the same papers remain
eligible on the next run); a successful send extends it with exactly the
batch's guids and updates `last_sent`.  A failed conference send leaves both
delivered sets unchanged; a successful one extends the global set with
exactly the batch's truthy ids. -/
theorem c8_history_update_gated_on_send :
    (∀ (h : EmailHistory) (papers : List RssPaper) (now : String),
        (run_subscription_step h papers false now).1 = h)
    ∧ (∀ (h : EmailHistory) (papers : List RssPaper) (now : String),
        filter_new papers h.sent_papers ≠ [] →
        (run_subscription_step h papers true now).1 =
          record_delivered h (filter_new papers h.sent_papers) now)
    ∧ (∀ (h : EmailHistory) (papers : List RssPaper) (now : String),
        filter_new papers ((run_subscription_step h papers false now).1).sent_papers =
          filter_new papers h.sent_papers)
    ∧ (∀ (sent : List String) (sbc : List (String × List String)) (file : ConfFile),
        (conf_file_step sent sbc file false).1 = sent
          ∧ (conf_file_step sent sbc file false).2.1 = sbc)
    ∧ (∀ (sent : List String) (sbc : List (String × List String)) (file : ConfFile),
        filter_new_conf file.papers sent (lookupConf sbc file.conference) ≠ [] →
        (conf_file_step sent sbc file true).1 =
          sent ++ ((filter_new_conf file.papers sent
            (lookupConf sbc file.conference)).map (·.id)).filter
              (fun i => decide (i ≠ ""))) := by
  refine ⟨?_, ?_, ?_, ?_, ?_⟩
  · intro h papers now
    rw [run_subscription_step]
    split
    · rfl
    · rw [if_neg (by simp)]
  · intro h papers now hne
    rw [run_subscription_step, if_neg (by simpa using hne), if_pos rfl]
  · intro h papers now
    rw [run_subscription_step]
    split
    · rfl
    · rw [if_neg (by simp)]
  · intro sent sbc file
    rw [conf_file_step]
    split
    · exact ⟨rfl, rfl⟩
    · rw [if_neg (by simp)]
      exact ⟨rfl, rfl⟩
  · intro sent sbc file hne
    rw [conf_file_step, if_neg (by simpa using hne), if_pos rfl]

/-- Witness for C8 at a concrete input: a successful send over an empty
history records the batch's guid. -/
theorem c8_history_update_gated_on_send_witness :
    (run_subscription_step ⟨[], none⟩ [⟨"t2", "l2", "d2", "g2", "pd2"⟩] true "ts").1 =
      record_delivered ⟨[], none⟩
        (filter_new [⟨"t2", "l2", "d2", "g2", "pd2"⟩] []) "ts" :=
  c8_history_update_gated_on_send.2.1 ⟨[], none⟩
    [⟨"t2", "l2", "d2", "g2", "pd2"⟩] "ts" (by decide)

/-- Claim C9: the output of `process_papers` is sorted by the
`published` key (with a missing date below every real one) in descending
order, it is a permutation of the accepted augmented papers, and any
key-tied subsequence of the accepted list survives in its original order
(stability). -/
theorem c9_output_ordering (now : Int) (papers : List Paper) (cfg : Config) :
    (process_papers now papers cfg).Pairwise (fun a b => procLE a b = true)
    ∧ (process_papers now papers cfg).Perm
        ((papers.filter (passes_filter now cfg)).map (processOne now cfg))
    ∧ (∀ c : List ProcessedPaper,
        c.Pairwise (fun a b => a.paper.published = b.paper.published) →
        c.Sublist ((papers.filter (passes_filter now cfg)).map (processOne now cfg)) →
        c.Sublist (process_papers now papers cfg)) := by
  refine ⟨?_, ?_, ?_⟩
  · simpa using List.sorted_mergeSort procLE_trans procLE_total
      ((papers.filter (passes_filter now cfg)).map (processOne now cfg))
  · exact List.mergeSort_perm _ _
  · intro c hpw hsub
    apply List.sublist_mergeSort procLE_trans procLE_total ?_ hsub
    apply hpw.imp
    intro a b hab
    simp only [procLE, hab]
    exact pubKeyLE_refl _

/-- Witness for C9 at a concrete input: the empty tied subsequence is a
sublist of the output. -/
theorem c9_output_ordering_witness :
    ([] : List ProcessedPaper).Sublist
      (process_papers 0 [⟨"w9", "t", "s", some ⟨2025, 1, 0⟩, none, []⟩]
        ⟨[], 30, none⟩) :=
  (c9_output_ordering 0 [⟨"w9", "t", "s", some ⟨2025, 1, 0⟩, none, []⟩]
    ⟨[], 30, none⟩).2.2 [] (by simp) (by simp)

/-- Claim C10: the selection score is always in `[0.5, 1.0]` — a 0.5 base
plus nonnegative bonuses capped at 1.0 — so with any threshold at most 0.5
the threshold filter of `select_papers_for_ai_analysis` excludes no paper
from the ranking, and the selection returns `min max_papers papers.length`
papers. -/
theorem c10_selection_score_range :
    (∀ (p : Paper) (kws : List String) (now : Int),
      (1/2 : ℚ) ≤ calculate_paper_selection_score p kws now
        ∧ calculate_paper_selection_score p kws now ≤ 1)
    ∧ (∀ (papers : List Paper) (kws : List String) (thr : ℚ) (now : Int),
        thr ≤ 1/2 →
        (papers.map (fun p => (p, calculate_paper_selection_score p kws now))).filter
            (fun x => decide (thr ≤ x.2)) =
          papers.map (fun p => (p, calculate_paper_selection_score p kws now)))
    ∧ (∀ (papers : List Paper) (kws : List String) (maxp : Nat) (thr : ℚ) (now : Int),
        thr ≤ 1/2 →
        (select_papers_for_ai_analysis papers kws maxp thr now).length
          = min maxp papers.length) := by
  have hfix : ∀ (papers : List Paper) (kws : List String) (thr : ℚ) (now : Int),
      thr ≤ 1/2 →
      (papers.map (fun p => (p, calculate_paper_selection_score p kws now))).filter
          (fun x => decide (thr ≤ x.2)) =
        papers.map (fun p => (p, calculate_paper_selection_score p kws now)) := by
    intro papers kws thr now hthr
    apply List.filter_eq_self.mpr
    intro x hx
    obtain ⟨p, _, rfl⟩ := List.mem_map.1 hx
    simp only [decide_eq_true_eq]
    exact le_trans hthr (score_bounds p kws now).1
  refine ⟨fun p kws now => score_bounds p kws now, hfix, ?_⟩
  intro papers kws maxp thr now hthr
  rw [select_papers_for_ai_analysis]
  simp only [hfix papers kws thr now hthr, List.length_map, List.length_take,
    (List.mergeSort_perm _ _).length_eq, Nat.min_comm]

/-- Witness for C10 at a concrete input: with threshold 0 the selection over
one paper returns exactly one paper. -/
theorem c10_selection_score_range_witness :
    (select_papers_for_ai_analysis [agentPaper] [] 5 0 0).length = min 5 1 :=
  c10_selection_score_range.2.2 [agentPaper] [] 5 0 0 (by norm_num)

end ArxivBot
